import Mathlib

/-!
Shallow embedding of the `pars` repository's reconciliation core:
the pattern extractors (`parseFile` in `http.go` / `ftp.go`), the
identity-keyed upsert (`saveToDB`), and the export renderer
(`exportSignatures` in `export.go`).

Go strings are modelled as `List Char` (the inputs of interest are
ASCII, so byte indices and char indices coincide).  Timestamps are
`Nat`.  The SQL table `signatures` is modelled as a list of rows in
insertion order; the two nullable text columns that the export code
inspects through `sql.NullString` (`msg`, `filename`) are modelled
as `Option (List Char)`.
-/

/-- Go's `strings.ReplaceAll(content, "\n", " ")`: the parsers collapse
line breaks to spaces before matching. -/
def normalizeNL (s : List Char) : List Char :=
  s.map (fun c => if c = '\n' then ' ' else c)

/-- Bool test: `pat` is a prefix of `s` (mirrors the comparison done by
Go's `strings.HasPrefix`, used to define the index search below). -/
def startsWith : List Char → List Char → Bool
  | [], _ => true
  | _ :: _, [] => false
  | p :: ps, c :: cs => p == c && startsWith ps cs

/-- Go's `strings.Index(s, pat)`: index of the first occurrence of `pat`
in `s`, `none` when absent (Go returns `-1`). -/
def indexOfSub (pat : List Char) : List Char → Option Nat
  | [] => if startsWith pat [] then some 0 else none
  | c :: s => if startsWith pat (c :: s) then some 0
              else (indexOfSub pat s).map (· + 1)

/-- Go's `strings.Contains(s, pat)`. -/
def containsSub (pat s : List Char) : Bool := (indexOfSub pat s).isSome

/-! ## Character classes of the RE2 patterns (ASCII semantics) -/

/-- RE2 `\w` = `[0-9A-Za-z_]`. -/
def isWordChar (c : Char) : Bool := c.isAlphanum || c == '_'

/-- RE2 `\s` = `[\t\n\f\r ]`. -/
def isSpaceGo (c : Char) : Bool :=
  c == ' ' || c == '\t' || c == '\n' || c == '\r' || c == Char.ofNat 12

/-- RE2 `\S`. -/
def isNonSpace (c : Char) : Bool := !isSpaceGo c

/-- RE2 `\d` = `[0-9]`. -/
def isDigitGo (c : Char) : Bool := c.isDigit

/-- `.` under the `s` flag (suricata/HTTP pattern): any character. -/
def dotAll (_ : Char) : Bool := true

/-- `.` without the `s` flag (snort/FTP pattern): any character except
a newline. -/
def dotNoNL (c : Char) : Bool := c != '\n'

/-! ## A small regex AST covering the two source patterns

Both patterns are built from case-insensitive literals, greedy `+`
over a character class, lazy `*?` over a character class, a single
(unnested) level of capture groups, alternation and sequencing.
The matcher below enumerates candidate matches in backtracking
priority order (greedy: longest first; lazy: shortest first;
alternation: left first), which is Go `regexp`'s leftmost-first
submatch semantics for these constructs. -/

inductive RE where
  | lit : List Char → RE
  | plus : (Char → Bool) → RE
  | lazyStar : (Char → Bool) → RE
  | grp : RE → RE
  | alt : RE → RE → RE
  | seq : RE → RE → RE

/-- Case-insensitive single-char comparison ((?i) flag; ASCII folding). -/
def ciEq (p c : Char) : Bool := p.toLower == c.toLower

/-- Case-insensitive literal prefix test. -/
def ciStarts : List Char → List Char → Bool
  | [], _ => true
  | _ :: _, [] => false
  | p :: ps, c :: cs => ciEq p c && ciStarts ps cs

/-- Length of the maximal leading run of characters satisfying `p`. -/
def maxRun (p : Char → Bool) : List Char → Nat
  | [] => 0
  | c :: s => if p c then maxRun p s + 1 else 0

/-- All ways `r` can match a prefix of `s`, in backtracking priority
order; an outcome is (number of characters consumed, captures in
group order). -/
def reRun : RE → List Char → List (Nat × List (List Char))
  | .lit l, s => if ciStarts l s then [(l.length, [])] else []
  | .plus p, s =>
      let n := maxRun p s
      (List.range n).map (fun i => (n - i, []))
  | .lazyStar p, s =>
      (List.range (maxRun p s + 1)).map (fun i => (i, []))
  | .grp r, s => (reRun r s).map (fun o => (o.1, o.2 ++ [s.take o.1]))
  | .alt r1 r2, s => reRun r1 s ++ reRun r2 s
  | .seq r1 r2, s =>
      (reRun r1 s).flatMap (fun o1 =>
        (reRun r2 (s.drop o1.1)).map (fun o2 => (o1.1 + o2.1, o1.2 ++ o2.2)))

/-- The leftmost-first match of `r` at the start of `s`, if any. -/
def matchHere (r : RE) (s : List Char) : Option (Nat × List (List Char)) :=
  (reRun r s).head?

/-- Worker for the repeated leftmost search: scans forward one
position at a time; after a match resumes at its end (advancing one
character on an empty match).  The fuel argument only bounds the
recursion; every step consumes at least one character of input, so
`length + 1` fuel is never exhausted. -/
def findAllGo (r : RE) : Nat → List Char → List (List (List Char))
  | 0, _ => []
  | _ + 1, [] =>
      match matchHere r [] with
      | some (_, caps) => [[] :: caps]
      | none => []
  | fuel + 1, c :: rest =>
      match matchHere r (c :: rest) with
      | some (n, caps) =>
          ((c :: rest).take n :: caps) ::
            findAllGo r fuel ((c :: rest).drop (max 1 n))
      | none => findAllGo r fuel rest

/-- Go's `FindAllStringSubmatch(s, -1)`: every non-overlapping match,
leftmost-first; each element is the full match followed by the
captures. -/
def findAllSubmatch (r : RE) (s : List Char) : List (List (List Char)) :=
  findAllGo r (s.length + 1) s

/-! ## The two source grammars -/

/-- `(?is)alert (\w+) (\[.*?\]|\S+) any -> (\[.*?\]|\S+) any .*?msg:"(.*?)";.*?sid:(\d+);`
(from `http.go`, `parseFile`). -/
def httpRE : RE :=
  .seq (.lit "alert ".toList)
  (.seq (.grp (.plus isWordChar))
  (.seq (.lit " ".toList)
  (.seq (.grp (.alt (.seq (.lit "[".toList)
                     (.seq (.lazyStar dotAll) (.lit "]".toList)))
                    (.plus isNonSpace)))
  (.seq (.lit " any -> ".toList)
  (.seq (.grp (.alt (.seq (.lit "[".toList)
                     (.seq (.lazyStar dotAll) (.lit "]".toList)))
                    (.plus isNonSpace)))
  (.seq (.lit " any ".toList)
  (.seq (.lazyStar dotAll)
  (.seq (.lit "msg:\"".toList)
  (.seq (.grp (.lazyStar dotAll))
  (.seq (.lit "\";".toList)
  (.seq (.lazyStar dotAll)
  (.seq (.lit "sid:".toList)
  (.seq (.grp (.plus isDigitGo))
        (.lit ";".toList))))))))))))))

/-- `(?i)alert (\w+) (\S+) (\S+) -> (\S+) (\S+).*?sid:(\d+);`
(from `ftp.go`, `parseFile`). -/
def ftpRE : RE :=
  .seq (.lit "alert ".toList)
  (.seq (.grp (.plus isWordChar))
  (.seq (.lit " ".toList)
  (.seq (.grp (.plus isNonSpace))
  (.seq (.lit " ".toList)
  (.seq (.grp (.plus isNonSpace))
  (.seq (.lit " -> ".toList)
  (.seq (.grp (.plus isNonSpace))
  (.seq (.lit " ".toList)
  (.seq (.grp (.plus isNonSpace))
  (.seq (.lazyStar dotNoNL)
  (.seq (.lit "sid:".toList)
  (.seq (.grp (.plus isDigitGo))
        (.lit ";".toList)))))))))))))

/-! ## Extracted records (`Signature` struct of `http.go` / `ftp.go`) -/

structure Signature where
  typ : List Char        -- Go field `Type`
  proto : List Char
  srcIP : List Char
  srcPort : List Char
  dstIP : List Char
  dstPort : List Char
  sid : List Char
  msg : List Char
  filename : List Char
deriving DecidableEq, Repr

/-- The literal `"ip ["` searched for by `http.go`'s message cleanup. -/
def ipBr : List Char := "ip [".toList

/-- The message cleanup of `http.go` (`parseFile`, lines 230-236):
if the message contains `"ip ["`, cut from the start of that
occurrence through the first `']'` that follows it (Go computes
`end = Index(msg[start:], "]") + start + 1`; when no `']'` exists
`Index` yields `-1` and the slice is the identity). -/
def stripMsg (msg : List Char) : List Char :=
  match indexOfSub ipBr msg with
  | none => msg
  | some start =>
      let e := match indexOfSub [']'] (msg.drop start) with
               | some j => j + start + 1
               | none => start
      msg.take start ++ msg.drop e

/-- Record built from one match of the suricata/HTTP grammar
(`http.go`, `parseFile`): `m` is the full match followed by the five
captures; matches with fewer than 6 entries are skipped. -/
def mkSigHttp (fn : List Char) (m : List (List Char)) : Option Signature :=
  if m.length < 6 then none
  else some
    { typ := m.getD 1 []
      proto := m.getD 2 []
      srcIP := m.getD 3 []
      srcPort := []
      dstIP := m.getD 4 []
      dstPort := []
      msg := stripMsg (m.getD 4 [])
      sid := m.getD 5 []
      filename := fn }

/-- `parseFile` of `http.go` as the list of records handed to
`saveToDB` (normalization, exhaustive matching, length guard,
message cleanup, field binding). -/
def parseFileHttp (content fn : List Char) : List Signature :=
  (findAllSubmatch httpRE (normalizeNL content)).filterMap (mkSigHttp fn)

/-- Record built from one match of the snort/FTP grammar
(`ftp.go`, `parseFile`): `m` is the full match followed by the six
captures; matches with fewer than 7 entries are skipped. -/
def mkSigFtp (fn : List Char) (m : List (List Char)) : Option Signature :=
  if m.length < 7 then none
  else some
    { typ := m.getD 1 []
      proto := m.getD 2 []
      srcIP := m.getD 3 []
      srcPort := m.getD 4 []
      dstIP := m.getD 5 []
      dstPort := m.getD 6 []
      sid := m.getD 6 []
      msg := []
      filename := fn }

/-- `parseFile` of `ftp.go` as the list of records handed to
`saveToDB`. -/
def parseFileFtp (content fn : List Char) : List Signature :=
  (findAllSubmatch ftpRE (normalizeNL content)).filterMap (mkSigFtp fn)

/-! ## The `signatures` table and `saveToDB` -/

structure Row where
  typ : List Char
  proto : List Char
  src_ip : List Char
  src_port : List Char
  dst_ip : List Char
  dst_port : List Char
  sid : List Char
  msg : Option (List Char)
  filename : Option (List Char)
  created_at : Nat
  updated_at : Option Nat
  deleted_at : Option Nat
deriving DecidableEq, Repr

inductive UpsertResult where
  | Created
  | Updated
  | Unchanged
deriving DecidableEq, Repr

/-- SQL `a != b` as used in the upsert's `WHERE` clause: three-valued,
not-true (hence `false` here) when either side is `NULL`. -/
def sqlTextNe : Option (List Char) → Option (List Char) → Bool
  | some a, some b => decide (a ≠ b)
  | _, _ => false

/-- The disjunction of the eight tracked-attribute comparisons in the
`ON CONFLICT ... DO UPDATE ... WHERE` clause of `saveToDB`. -/
def trackedDiffers (r : Row) (sig : Signature) : Bool :=
  decide (r.typ ≠ sig.typ) || decide (r.proto ≠ sig.proto) ||
  decide (r.src_ip ≠ sig.srcIP) || decide (r.src_port ≠ sig.srcPort) ||
  decide (r.dst_ip ≠ sig.dstIP) || decide (r.dst_port ≠ sig.dstPort) ||
  sqlTextNe r.msg (some sig.msg) || sqlTextNe r.filename (some sig.filename)

/-- Row produced by the `INSERT` arm: every bound column from the
record, `updated_at = CURRENT_TIMESTAMP`, `created_at` from the
column default, `deleted_at` from its `NULL` default. -/
def newRow (sig : Signature) (now : Nat) : Row :=
  { typ := sig.typ, proto := sig.proto, src_ip := sig.srcIP
    src_port := sig.srcPort, dst_ip := sig.dstIP, dst_port := sig.dstPort
    sid := sig.sid, msg := some sig.msg, filename := some sig.filename
    created_at := now, updated_at := some now, deleted_at := none }

/-- Row produced by the `DO UPDATE SET` arm: all tracked columns
overwritten, `updated_at` refreshed; `sid`, `created_at` and
`deleted_at` untouched. -/
def updatedRow (r : Row) (sig : Signature) (now : Nat) : Row :=
  { r with typ := sig.typ, proto := sig.proto, src_ip := sig.srcIP
           src_port := sig.srcPort, dst_ip := sig.dstIP, dst_port := sig.dstPort
           msg := some sig.msg, filename := some sig.filename
           updated_at := some now }

/-- `saveToDB` (identical in `http.go` and `ftp.go`): the effect of the
`INSERT ... ON CONFLICT (sid) DO UPDATE ... WHERE ...` statement on the
table, together with which of insert / update / no-op happened. -/
def saveToDB (store : List Row) (sig : Signature) (now : Nat) :
    List Row × UpsertResult :=
  match store.find? (fun r => r.sid == sig.sid) with
  | none => (store ++ [newRow sig now], .Created)
  | some r =>
      if trackedDiffers r sig then
        (store.map (fun q => if q.sid == sig.sid then updatedRow q sig now else q),
         .Updated)
      else (store, .Unchanged)

/-! ## Export (`export.go`, `exportSignatures`) -/

/-- Observable I/O of one `exportSignatures` call: the store query and
the single output-file write. -/
inductive Ev where
  | queryStore
  | writeFile (path : List Char) (content : List Char)
deriving DecidableEq, Repr

def suricataFmt : List Char := "suricata".toList
def dionisFmt : List Char := "dionis".toList

/-- The `N/A` default substituted for `NULL` `msg` / `filename`. -/
def sentinelNA : List Char := "N/A".toList

/-- Prefix of the error returned for an unknown format. -/
def unsupportedMsg : List Char := "Неподдерживаемый формат экспорта: ".toList

/-- One iteration of the row loop: `NULL` handling of `msg` and
`filename`, then the per-format line (or the unsupported-format
error from the `default` branch). -/
def renderRow (format : List Char) (r : Row) : Except (List Char) (List Char) :=
  let msg := r.msg.getD sentinelNA
  let fn := r.filename.getD sentinelNA
  if format = suricataFmt then
    .ok ("\nalert ".toList ++ r.typ ++ " ".toList ++ r.proto ++ " ".toList ++
         r.src_ip ++ " -> ".toList ++ r.dst_ip ++ " any (msg:\"".toList ++
         msg ++ "\"; sid:".toList ++ r.sid ++ ";);".toList)
  else if format = dionisFmt then
    .ok ("\ntype:".toList ++ r.typ ++ ";proto:".toList ++ r.proto ++
         ";src_ip:".toList ++ r.src_ip ++ ";dst_ip:".toList ++ r.dst_ip ++
         ";sid:".toList ++ r.sid ++ ";msg:".toList ++ msg ++
         ";filename:".toList ++ fn ++ ";".toList)
  else .error (unsupportedMsg ++ format)

/-- The row loop: each cursor step either yields a row or fails like
`rows.Scan`; the first failure (scan or unsupported format) aborts
the loop with that error, exactly as the early `return`s do. -/
def renderRows (rows : List (Except (List Char) Row)) (format : List Char) :
    Except (List Char) (List (List Char)) :=
  match rows with
  | [] => .ok []
  | .error e :: _ => .error e
  | .ok r :: rest =>
      match renderRow format r with
      | .error e => .error e
      | .ok line =>
          match renderRows rest format with
          | .error e => .error e
          | .ok lines => .ok (line :: lines)

/-- `exportSignatures` over an already-opened cursor: the query
happens first; the output file is written once, with the fully
buffered text (`strings.Join(outputData, "")`), only when the whole
loop succeeded. -/
def exportSignatures (rows : List (Except (List Char) Row))
    (format outputFile : List Char) : Except (List Char) Unit × List Ev :=
  match renderRows rows format with
  | .error e => (.error e, [.queryStore])
  | .ok lines => (.ok (), [.queryStore, .writeFile outputFile lines.flatten])

/-- The query's read view: `WHERE deleted_at IS NULL`. -/
def readView (store : List Row) : List Row :=
  store.filter (fun r => r.deleted_at.isNone)

/-- `exportSignatures` run against a store whose rows all scan
cleanly. -/
def exportFromStore (store : List Row) (format outputFile : List Char) :
    Except (List Char) Unit × List Ev :=
  exportSignatures ((readView store).map .ok) format outputFile

/-- Number of file writes in a trace. -/
def countWrites (evs : List Ev) : Nat :=
  evs.countP (fun e => match e with | .writeFile _ _ => true | _ => false)

/-! ## Concrete inputs used by several claims -/

/-- The rule text of the grammar-partiality test case. -/
def exHttp : List Char :=
  "alert tcp 10.0.0.1 any -> 10.0.0.2 any (msg:\"test rule\"; sid:1000001;)".toList

/-- A suricata-style rule whose message embeds a bracketed address list. -/
def exHttp2 : List Char :=
  "alert tcp 10.0.0.1 any -> 10.0.0.2 any (msg:\"rule ip [9.9.9.9] hit\"; sid:43;)".toList

/-- A snort-style rule with distinct source/destination address and
port tokens. -/
def exFtp : List Char :=
  "alert tcp $EXTERNAL_NET any -> $HOME_NET 80 (msg:\"x\"; sid:1000001;)".toList

/-- A record as extracted from `exHttp` by the HTTP grammar. -/
def sigA : Signature :=
  { typ := "tcp".toList, proto := "10.0.0.1".toList, srcIP := "10.0.0.2".toList
    srcPort := [], dstIP := "test rule".toList, dstPort := []
    sid := "1000001".toList, msg := "test rule".toList
    filename := "local.rules".toList }

/-- `sigA` with a different message (one differing tracked attribute). -/
def sigB : Signature := { sigA with msg := "new msg".toList }

/-- A record with an empty identity. -/
def sigEmpty : Signature :=
  { typ := [], proto := [], srcIP := [], srcPort := [], dstIP := []
    dstPort := [], sid := [], msg := [], filename := [] }

/-! ## Store lemmas -/

theorem find?_map_pres {α : Type} (p : α → Bool) (g : α → α)
    (hg : ∀ x, p (g x) = p x) :
    ∀ l : List α, (l.map g).find? p = (l.find? p).map g := by
  intro l
  induction l with
  | nil => rfl
  | cons a t ih =>
    simp only [List.map_cons]
    cases h : p a with
    | true =>
      rw [List.find?_cons_of_pos _ (by rw [hg]; exact h),
          List.find?_cons_of_pos _ h]
      rfl
    | false =>
      rw [List.find?_cons_of_neg _ (by rw [hg, h]; simp),
          List.find?_cons_of_neg _ (by rw [h]; simp)]
      exact ih

/-- A fresh insert stores the record unchanged and the re-insert
comparison then sees all eight tracked attributes equal. -/
theorem trackedDiffers_newRow (sig : Signature) (now : Nat) :
    trackedDiffers (newRow sig now) sig = false := by
  simp [trackedDiffers, newRow, sqlTextNe]

/-- C1. For a record with non-empty identity not yet in the store,
upserting it twice yields `Created` then `Unchanged`; the second call
leaves the table untouched (so in particular `updated_at`, set to the
first call's timestamp, is unchanged). -/
theorem upsert_created_then_unchanged (store : List Row) (sig : Signature)
    (now now' : Nat) (hne : sig.sid ≠ [])
    (habs : ∀ r ∈ store, r.sid ≠ sig.sid) :
    (saveToDB store sig now).2 = .Created ∧
    (saveToDB (saveToDB store sig now).1 sig now').2 = .Unchanged ∧
    (saveToDB (saveToDB store sig now).1 sig now').1 = (saveToDB store sig now).1 ∧
    ((saveToDB store sig now).1.find? (fun r => r.sid == sig.sid)).map
        Row.updated_at = some (some now) ∧
    ((saveToDB (saveToDB store sig now).1 sig now').1.find?
        (fun r => r.sid == sig.sid)).map Row.updated_at
      = ((saveToDB store sig now).1.find? (fun r => r.sid == sig.sid)).map
          Row.updated_at := by
  have h0 : store.find? (fun r => r.sid == sig.sid) = none := by
    rw [List.find?_eq_none]
    intro r hr
    simp only [beq_iff_eq]
    exact habs r hr
  have h1 : (store ++ [newRow sig now]).find? (fun r => r.sid == sig.sid)
      = some (newRow sig now) := by
    rw [List.find?_append, h0]
    simp [newRow]
  have hfirst : saveToDB store sig now = (store ++ [newRow sig now], .Created) := by
    simp [saveToDB, h0]
  rw [hfirst]
  have hsecond : saveToDB (store ++ [newRow sig now]) sig now'
      = (store ++ [newRow sig now], .Unchanged) := by
    simp [saveToDB, h1, trackedDiffers_newRow]
  rw [hsecond, h1]
  simp [newRow]

/-- Witness for C1 at a concrete input. -/
theorem upsert_created_then_unchanged_witness :
    (sigA.sid ≠ []) ∧ (∀ r ∈ ([] : List Row), r.sid ≠ sigA.sid) ∧
    ((saveToDB [] sigA 5).2 = .Created ∧
     (saveToDB (saveToDB [] sigA 5).1 sigA 9).2 = .Unchanged ∧
     (saveToDB (saveToDB [] sigA 5).1 sigA 9).1 = (saveToDB [] sigA 5).1 ∧
     ((saveToDB [] sigA 5).1.find? (fun r => r.sid == sigA.sid)).map
         Row.updated_at = some (some 5) ∧
     ((saveToDB (saveToDB [] sigA 5).1 sigA 9).1.find?
         (fun r => r.sid == sigA.sid)).map Row.updated_at
       = ((saveToDB [] sigA 5).1.find? (fun r => r.sid == sigA.sid)).map
           Row.updated_at) :=
  ⟨by decide, by decide,
   upsert_created_then_unchanged [] sigA 5 9 (by decide) (by decide)⟩

/-- C2. Upserting a record whose identity is already stored and whose
tracked attributes differ somewhere yields `Updated`, overwrites all
eight tracked attributes, refreshes `updated_at` and keeps
`created_at`.  The two hypotheses `hm`/`hf` say the stored row's
nullable columns are populated, which holds for every row this
program ever writes. -/
theorem upsert_change_detection (store : List Row) (r : Row) (sig : Signature)
    (now : Nat) (m f : List Char)
    (hfind : store.find? (fun q => q.sid == sig.sid) = some r)
    (hm : r.msg = some m) (hf : r.filename = some f)
    (hdiff : (r.typ, r.proto, r.src_ip, r.src_port, r.dst_ip, r.dst_port, m, f)
      ≠ (sig.typ, sig.proto, sig.srcIP, sig.srcPort, sig.dstIP, sig.dstPort,
         sig.msg, sig.filename)) :
    (saveToDB store sig now).2 = .Updated ∧
    ∃ r', (saveToDB store sig now).1.find? (fun q => q.sid == sig.sid) = some r' ∧
      r'.typ = sig.typ ∧ r'.proto = sig.proto ∧ r'.src_ip = sig.srcIP ∧
      r'.src_port = sig.srcPort ∧ r'.dst_ip = sig.dstIP ∧
      r'.dst_port = sig.dstPort ∧ r'.msg = some sig.msg ∧
      r'.filename = some sig.filename ∧ r'.updated_at = some now ∧
      r'.created_at = r.created_at ∧ r'.sid = r.sid := by
  have hd : trackedDiffers r sig = true := by
    cases hT : trackedDiffers r sig with
    | true => rfl
    | false =>
      exfalso
      apply hdiff
      simp only [trackedDiffers, hm, hf, sqlTextNe, Bool.or_eq_false_iff,
        decide_eq_false_iff_not, not_not] at hT
      obtain ⟨⟨⟨⟨⟨⟨⟨h1, h2⟩, h3⟩, h4⟩, h5⟩, h6⟩, h7⟩, h8⟩ := hT
      simp [h1, h2, h3, h4, h5, h6, h7, h8]
  have hsave : saveToDB store sig now =
      (store.map (fun q => if q.sid == sig.sid then updatedRow q sig now else q),
       .Updated) := by
    simp [saveToDB, hfind, hd]
  have hpres : ∀ q : Row,
      ((if q.sid == sig.sid then updatedRow q sig now else q).sid == sig.sid)
        = (q.sid == sig.sid) := by
    intro q
    cases hq : (q.sid == sig.sid) with
    | true => simp [hq, updatedRow]
    | false => simp [hq]
  have hfind' : (store.map
        (fun q => if q.sid == sig.sid then updatedRow q sig now else q)).find?
        (fun q => q.sid == sig.sid) = some (updatedRow r sig now) := by
    rw [find?_map_pres _ _ hpres, hfind]
    have := List.find?_some hfind
    simp only [Option.map_some']
    rw [if_pos this]
  rw [hsave]
  refine ⟨rfl, updatedRow r sig now, hfind', ?_⟩
  simp [updatedRow]

set_option synthInstance.maxSize 512 in
/-- Witness for C2 at a concrete input: the stored record came from
upserting `sigA`; `sigB` changes only the message. -/
theorem upsert_change_detection_witness :
    ([newRow sigA 5].find? (fun q => q.sid == sigB.sid) = some (newRow sigA 5)) ∧
    ((newRow sigA 5).msg = some "test rule".toList) ∧
    ((saveToDB [newRow sigA 5] sigB 9).2 = .Updated ∧
     ∃ r', (saveToDB [newRow sigA 5] sigB 9).1.find?
         (fun q => q.sid == sigB.sid) = some r' ∧
       r'.typ = sigB.typ ∧ r'.proto = sigB.proto ∧ r'.src_ip = sigB.srcIP ∧
       r'.src_port = sigB.srcPort ∧ r'.dst_ip = sigB.dstIP ∧
       r'.dst_port = sigB.dstPort ∧ r'.msg = some sigB.msg ∧
       r'.filename = some sigB.filename ∧ r'.updated_at = some 9 ∧
       r'.created_at = (newRow sigA 5).created_at ∧
       r'.sid = (newRow sigA 5).sid) :=
  ⟨by decide, by decide,
   upsert_change_detection [newRow sigA 5] (newRow sigA 5) sigB 9
     "test rule".toList "local.rules".toList (by decide) (by decide)
     (by decide) (by decide)⟩

/-- C3 counterexample: upserting a record with empty identity into an
empty store is not rejected — it creates a row (keyed by the empty
identity), so the store is modified and the result is `Created`, not
an error. -/
theorem upsert_empty_identity_inserted :
    (saveToDB [] sigEmpty 0).1 ≠ [] ∧ (saveToDB [] sigEmpty 0).2 = .Created := by
  decide

/-- C3 amended: `saveToDB` performs no identity check at all — a
record with empty identity is inserted like any other (the store
gains a row keyed by the empty identity and the result is `Created`). -/
theorem upsert_empty_identity_no_reject (store : List Row) (sig : Signature)
    (now : Nat) (hsid : sig.sid = []) (habs : ∀ r ∈ store, r.sid ≠ []) :
    saveToDB store sig now = (store ++ [newRow sig now], .Created) := by
  have h0 : store.find? (fun r => r.sid == sig.sid) = none := by
    rw [List.find?_eq_none]
    intro r hr
    simp only [beq_iff_eq, hsid]
    exact habs r hr
  simp [saveToDB, h0]

/-- Witness for the amended C3 at a concrete input. -/
theorem upsert_empty_identity_no_reject_witness :
    (sigEmpty.sid = []) ∧ (∀ r ∈ [newRow sigA 5], r.sid ≠ []) ∧
    saveToDB [newRow sigA 5] sigEmpty 7
      = ([newRow sigA 5] ++ [newRow sigEmpty 7], .Created) :=
  ⟨by decide, by decide,
   upsert_empty_identity_no_reject [newRow sigA 5] sigEmpty 7
     (by decide) (by decide)⟩

/-! ## Export claims -/

/-- An unknown format identifier. -/
def bogusFmt : List Char := "xml".toList

/-- Output path used in the export examples. -/
def outFile : List Char := "export_xml.txt".toList

/-- A live row whose `msg` is the empty string (as ingested from the
port-bearing grammar, which always stores `Msg: ""`). -/
def rowEmptyMsg : Row :=
  { typ := "tcp".toList, proto := "a".toList, src_ip := "b".toList
    src_port := [], dst_ip := "c".toList, dst_port := []
    sid := "1".toList, msg := some [], filename := some "f".toList
    created_at := 0, updated_at := none, deleted_at := none }

/-- C4 counterexample: with an unsupported format and a store holding
zero live records, export does not fail at all — the store query runs
and an (empty) artifact is written to the output path. -/
theorem export_unknown_format_empty_store_writes :
    exportFromStore [] bogusFmt outFile
      = (.ok (), [.queryStore, .writeFile outFile []]) := by
  rfl

/-- C4 amended: the store query always runs first; an unsupported
format is only detected inside the row loop, so with zero live rows
export succeeds and writes an empty artifact, and with at least one
live row it fails on the first row, with the descriptive error and no
file write. -/
theorem export_unknown_format_lazy_failure (store : List Row)
    (fmt out : List Char) (h1 : fmt ≠ suricataFmt) (h2 : fmt ≠ dionisFmt) :
    (readView store = [] →
      exportFromStore store fmt out = (.ok (), [.queryStore, .writeFile out []])) ∧
    (readView store ≠ [] →
      (exportFromStore store fmt out).1 = .error (unsupportedMsg ++ fmt) ∧
      (exportFromStore store fmt out).2 = [.queryStore]) := by
  constructor
  · intro hv
    simp [exportFromStore, hv, exportSignatures, renderRows]
  · intro hv
    cases hv2 : readView store with
    | nil => exact absurd hv2 hv
    | cons r rest =>
      have : renderRow fmt r = .error (unsupportedMsg ++ fmt) := by
        simp [renderRow, h1, h2]
      simp [exportFromStore, hv2, exportSignatures, renderRows, this]

/-- Witness for the amended C4 at concrete inputs (a one-row store). -/
theorem export_unknown_format_lazy_failure_witness :
    (bogusFmt ≠ suricataFmt) ∧ (bogusFmt ≠ dionisFmt) ∧
    ((readView [rowEmptyMsg] = [] →
       exportFromStore [rowEmptyMsg] bogusFmt outFile
         = (.ok (), [.queryStore, .writeFile outFile []])) ∧
     (readView [rowEmptyMsg] ≠ [] →
       (exportFromStore [rowEmptyMsg] bogusFmt outFile).1
         = .error (unsupportedMsg ++ bogusFmt) ∧
       (exportFromStore [rowEmptyMsg] bogusFmt outFile).2 = [.queryStore])) :=
  ⟨by decide, by decide,
   export_unknown_format_lazy_failure [rowEmptyMsg] bogusFmt outFile
     (by decide) (by decide)⟩

/-- C5 counterexample: a live record whose `msg` attribute is the
empty string renders with an empty `msg:""` field, not with the
`N/A` placeholder — the sentinel is tied to SQL `NULL`, not to
emptiness. -/
theorem export_empty_msg_renders_blank :
    exportFromStore [rowEmptyMsg] suricataFmt outFile
      = (.ok (), [.queryStore,
          .writeFile outFile "\nalert tcp a b -> c any (msg:\"\"; sid:1;);".toList]) ∧
    containsSub sentinelNA "\nalert tcp a b -> c any (msg:\"\"; sid:1;);".toList
      = false := by
  constructor
  · rfl
  · decide

/-- C5 amended: the `N/A` placeholder is substituted exactly when the
stored `msg` (resp. `filename`, in the key:value format) is SQL
`NULL`; an empty-string attribute is rendered as the empty string. -/
theorem export_na_only_for_null (r : Row) (out : List Char)
    (hmsg : r.msg = none) :
    exportSignatures [.ok r] suricataFmt out
      = (.ok (), [.queryStore, .writeFile out
          ("\nalert ".toList ++ r.typ ++ " ".toList ++ r.proto ++ " ".toList ++
           r.src_ip ++ " -> ".toList ++ r.dst_ip ++ " any (msg:\"".toList ++
           sentinelNA ++ "\"; sid:".toList ++ r.sid ++ ";);".toList)]) ∧
    (r.filename = none →
      exportSignatures [.ok r] dionisFmt out
        = (.ok (), [.queryStore, .writeFile out
            ("\ntype:".toList ++ r.typ ++ ";proto:".toList ++ r.proto ++
             ";src_ip:".toList ++ r.src_ip ++ ";dst_ip:".toList ++ r.dst_ip ++
             ";sid:".toList ++ r.sid ++ ";msg:".toList ++ sentinelNA ++
             ";filename:".toList ++ sentinelNA ++ ";".toList)])) := by
  constructor
  · simp [exportSignatures, renderRows, renderRow, hmsg, suricataFmt, dionisFmt]
  · intro hfn
    simp [exportSignatures, renderRows, renderRow, hmsg, hfn, suricataFmt,
      dionisFmt]

/-- A row as an administrative action could leave it: both nullable
columns `NULL`. -/
def rowNullMsg : Row :=
  { typ := "tcp".toList, proto := "a".toList, src_ip := "b".toList
    src_port := [], dst_ip := "c".toList, dst_port := []
    sid := "2".toList, msg := none, filename := none
    created_at := 0, updated_at := none, deleted_at := none }

/-- Witness for the amended C5 at a concrete input. -/
theorem export_na_only_for_null_witness :
    (rowNullMsg.msg = none) ∧
    exportSignatures [.ok rowNullMsg] suricataFmt outFile
      = (.ok (), [.queryStore, .writeFile outFile
          "\nalert tcp a b -> c any (msg:\"N/A\"; sid:2;);".toList]) :=
  ⟨by decide,
   by
     have h := (export_na_only_for_null rowNullMsg outFile (by decide)).1
     simpa [rowNullMsg] using h⟩

/-- C6. The output file is written at most once per export call, never
when the render loop fails (so a mid-iteration failure leaves no
partial artifact at the output path — whatever was there before
remains), and a success performs exactly the one buffered write to
the output path. -/
theorem export_write_is_atomic (rows : List (Except (List Char) Row))
    (fmt out : List Char) :
    countWrites (exportSignatures rows fmt out).2 ≤ 1 ∧
    (∀ e, (exportSignatures rows fmt out).1 = .error e →
      countWrites (exportSignatures rows fmt out).2 = 0) ∧
    ((exportSignatures rows fmt out).1 = .ok () →
      ∃ c, (exportSignatures rows fmt out).2
        = [.queryStore, .writeFile out c]) := by
  cases h : renderRows rows fmt with
  | error e =>
    refine ⟨?_, ?_, ?_⟩ <;> simp [exportSignatures, h, countWrites]
  | ok lines =>
    refine ⟨?_, ?_, ?_⟩ <;> simp [exportSignatures, h, countWrites]

/-- Witness for C6: a cursor failure after the first of two rows
(`rows.Scan` failing mid-iteration) produces the error and zero
writes. -/
theorem export_write_is_atomic_witness :
    (exportSignatures [.ok rowEmptyMsg, .error "scan failure".toList]
        suricataFmt outFile).1 = .error "scan failure".toList ∧
    countWrites (exportSignatures [.ok rowEmptyMsg, .error "scan failure".toList]
        suricataFmt outFile).2 = 0 :=
  ⟨rfl,
   (export_write_is_atomic [.ok rowEmptyMsg, .error "scan failure".toList]
      suricataFmt outFile).2.1 "scan failure".toList rfl⟩

/-! ## Extraction claims -/

/-- C7. Extracting the grammar-partiality test rule via the
message-bearing (suricata/HTTP) grammar yields exactly one record,
with identity `1000001`, message `test rule`, and empty source and
destination ports. -/
theorem http_example_extraction :
    (parseFileHttp exHttp "local.rules".toList).map
      (fun s => (s.sid, s.msg, s.srcPort, s.dstPort))
      = [("1000001".toList, "test rule".toList, [], [])] := by
  decide

/-- C9. Every record emitted by the port-bearing (snort/FTP) grammar
has `dstPort = sid` — both are bound to capture group 6, the numeric
sid — while the destination-port token of the rule text (group 5)
lands in `dstIP`, as the concrete example shows: the `80` of the rule
is stored as the destination address and the destination port equals
the identity `1000001`. -/
theorem ftp_destPort_is_identity :
    (∀ content fn : List Char,
      (parseFileFtp content fn).all (fun s => s.dstPort == s.sid) = true) ∧
    (parseFileFtp exFtp "snort.rules".toList).map
      (fun s => (s.dstIP, s.dstPort, s.sid))
      = [("80".toList, "1000001".toList, "1000001".toList)] := by
  constructor
  · intro content fn
    rw [List.all_eq_true]
    intro s hs
    simp only [parseFileFtp, List.mem_filterMap] at hs
    obtain ⟨m, -, hmk⟩ := hs
    unfold mkSigFtp at hmk
    split at hmk
    · exact absurd hmk (by simp)
    · rw [Option.some.injEq] at hmk
      subst hmk
      simp
  · decide

/-- C10. Every record emitted by the message-bearing (suricata/HTTP)
grammar stores the raw quoted message capture in `dstIP` (its `msg`
is the bracket-stripped version of its `dstIP`), and, as the concrete
example shows, the source-address token of the rule lands in `proto`
and the destination-address token in `srcIP`. -/
theorem http_dstAddress_is_raw_message :
    (∀ content fn : List Char,
      (parseFileHttp content fn).all (fun s => s.msg == stripMsg s.dstIP) = true) ∧
    (parseFileHttp exHttp2 "local.rules".toList).map
      (fun s => (s.proto, s.srcIP, s.dstIP, s.msg))
      = [("10.0.0.1".toList, "10.0.0.2".toList,
          "rule ip [9.9.9.9] hit".toList, "rule  hit".toList)] := by
  constructor
  · intro content fn
    rw [List.all_eq_true]
    intro s hs
    simp only [parseFileHttp, List.mem_filterMap] at hs
    obtain ⟨m, -, hmk⟩ := hs
    unfold mkSigHttp at hmk
    split at hmk
    · exact absurd hmk (by simp)
    · rw [Option.some.injEq] at hmk
      subst hmk
      simp
  · decide

/-! ## Index lemmas for the message-cleanup claim -/

theorem startsWith_iff : ∀ (p s : List Char),
    startsWith p s = true ↔ ∃ t, s = p ++ t
  | [], s => by simp [startsWith]
  | p :: ps, [] => by simp [startsWith]
  | p :: ps, c :: cs => by
      simp only [startsWith, Bool.and_eq_true, beq_iff_eq]
      rw [startsWith_iff ps cs]
      constructor
      · rintro ⟨rfl, t, rfl⟩
        exact ⟨t, rfl⟩
      · rintro ⟨t, ht⟩
        rw [List.cons_append] at ht
        injection ht with h1 h2
        exact ⟨h1.symm, t, h2⟩

theorem indexOfSub_sound : ∀ (pat s : List Char) (i : Nat),
    indexOfSub pat s = some i → startsWith pat (s.drop i) = true
  | pat, [], i => by
      simp only [indexOfSub]
      split
      · rename_i h
        intro he
        rw [Option.some.injEq] at he
        subst he
        simpa using h
      · intro he
        cases he
  | pat, c :: s, i => by
      simp only [indexOfSub]
      split
      · rename_i h
        intro he
        rw [Option.some.injEq] at he
        subst he
        simpa using h
      · rename_i h
        intro he
        rw [Option.map_eq_some'] at he
        obtain ⟨j, hj, rfl⟩ := he
        simpa using indexOfSub_sound pat s j hj

theorem indexOfSub_min : ∀ (pat s : List Char) (i : Nat),
    indexOfSub pat s = some i → ∀ j, j < i → startsWith pat (s.drop j) = false
  | pat, [], i => by
      simp only [indexOfSub]
      split
      · intro he
        rw [Option.some.injEq] at he
        subst he
        intro j hj
        exact absurd hj (Nat.not_lt_zero j)
      · intro he
        cases he
  | pat, c :: s, i => by
      simp only [indexOfSub]
      split
      · intro he
        rw [Option.some.injEq] at he
        subst he
        intro j hj
        exact absurd hj (Nat.not_lt_zero j)
      · rename_i h
        intro he
        rw [Option.map_eq_some'] at he
        obtain ⟨j', hj', rfl⟩ := he
        intro j hj
        cases j with
        | zero =>
            rw [List.drop_zero]
            exact Bool.not_eq_true _ ▸ (Bool.eq_false_iff.mpr h)
        | succ k =>
            simpa using indexOfSub_min pat s j' hj' k (by omega)

theorem indexOfSub_complete : ∀ (pat s : List Char) (i : Nat),
    startsWith pat (s.drop i) = true →
    ∃ j, j ≤ i ∧ indexOfSub pat s = some j
  | pat, [], i => by
      intro h
      rw [List.drop_nil] at h
      refine ⟨0, Nat.zero_le i, ?_⟩
      simp only [indexOfSub]
      rw [if_pos h]
  | pat, c :: s, 0 => by
      intro h
      rw [List.drop_zero] at h
      refine ⟨0, Nat.le_refl 0, ?_⟩
      simp only [indexOfSub]
      rw [if_pos h]
  | pat, c :: s, i + 1 => by
      intro h
      by_cases h0 : startsWith pat (c :: s) = true
      · refine ⟨0, Nat.zero_le _, ?_⟩
        simp only [indexOfSub]
        rw [if_pos h0]
      · rw [List.drop_succ_cons] at h
        obtain ⟨j, hj, hidx⟩ := indexOfSub_complete pat s i h
        refine ⟨j + 1, by omega, ?_⟩
        simp only [indexOfSub]
        rw [if_neg h0, hidx]
        rfl

/-- An occurrence that fits inside the first `n` characters is an
occurrence in the truncation. -/
theorem startsWith_take (pat s : List Char) (j n : Nat)
    (h : startsWith pat (s.drop j) = true) (hn : j + pat.length ≤ n) :
    startsWith pat ((s.take n).drop j) = true := by
  rw [startsWith_iff] at h ⊢
  obtain ⟨t, ht⟩ := h
  refine ⟨t.take (n - j - pat.length), ?_⟩
  rw [List.drop_take, ht, List.take_append_eq_append_take,
      List.take_of_length_le (by omega)]

/-- C8. The extractor's message cleanup removes exactly the first
embedded bracketed address-list fragment `ip [...]` (from the first
occurrence of `"ip ["` through the first `']'` after it) and leaves
the rest of the message — including any later bracketed fragments —
unchanged; a message containing no such fragment is left unmodified. -/
theorem http_msg_bracket_strip :
    (∀ a b c : List Char,
      containsSub ipBr (a ++ "ip ".toList) = false →
      ']' ∉ b →
      stripMsg (a ++ ipBr ++ b ++ ']' :: c) = a ++ c) ∧
    (∀ m : List Char, containsSub ipBr m = false → stripMsg m = m) := by
  constructor
  · intro a b c h1 hb
    have hlen4 : ipBr.length = 4 := by decide
    have hlen3 : ("ip ".toList).length = 3 := by decide
    have hsplit : ipBr = "ip ".toList ++ ['['] := by decide
    set msg := a ++ ipBr ++ b ++ ']' :: c with hmsg
    have hassoc : msg = a ++ (ipBr ++ (b ++ ']' :: c)) := by
      simp [hmsg, List.append_assoc]
    have hoccA : startsWith ipBr (msg.drop a.length) = true := by
      rw [hassoc, List.drop_left, startsWith_iff]
      exact ⟨b ++ ']' :: c, rfl⟩
    obtain ⟨j, hj_le, hjidx⟩ := indexOfSub_complete ipBr msg a.length hoccA
    have hj_eq : j = a.length := by
      rcases Nat.lt_or_ge j a.length with hlt | hge
      · exfalso
        have hocc_j : startsWith ipBr (msg.drop j) = true :=
          indexOfSub_sound ipBr msg j hjidx
        have htake : msg.take (a.length + 3) = a ++ "ip ".toList := by
          have hform : msg = (a ++ "ip ".toList) ++ ('[' :: (b ++ ']' :: c)) := by
            rw [hmsg, hsplit]
            simp [List.append_assoc]
          rw [hform,
              List.take_left' (by rw [List.length_append, hlen3])]
        have hocc_take : startsWith ipBr ((msg.take (a.length + 3)).drop j)
            = true :=
          startsWith_take ipBr msg j (a.length + 3) hocc_j
            (by rw [hlen4]; omega)
        rw [htake] at hocc_take
        obtain ⟨j', -, hj'⟩ :=
          indexOfSub_complete ipBr (a ++ "ip ".toList) j hocc_take
        rw [containsSub, hj'] at h1
        simp at h1
      · omega
    subst hj_eq
    have hdropA : msg.drop a.length = ipBr ++ (b ++ ']' :: c) := by
      rw [hassoc, List.drop_left]
    have hoccB : startsWith [']']
        ((msg.drop a.length).drop (4 + b.length)) = true := by
      rw [hdropA]
      have hre : ipBr ++ (b ++ ']' :: c) = (ipBr ++ b) ++ (']' :: c) := by
        simp [List.append_assoc]
      rw [hre, List.drop_left' (by rw [List.length_append, hlen4])]
      simp [startsWith]
    obtain ⟨k, hk_le, hkidx⟩ :=
      indexOfSub_complete [']'] (msg.drop a.length) (4 + b.length) hoccB
    have hk_eq : k = 4 + b.length := by
      rcases Nat.lt_or_ge k (4 + b.length) with hlt | hge
      · exfalso
        have hocc_k : startsWith [']'] ((msg.drop a.length).drop k) = true :=
          indexOfSub_sound [']'] (msg.drop a.length) k hkidx
        rw [startsWith_iff] at hocc_k
        obtain ⟨t, ht⟩ := hocc_k
        have hhead : ((msg.drop a.length).drop k).head? = some ']' := by
          rw [ht]; rfl
        rw [List.head?_drop] at hhead
        have hk_lt : k < (ipBr ++ b).length := by
          rw [List.length_append, hlen4]; omega
        rw [hdropA] at hhead
        have hre2 : ipBr ++ (b ++ ']' :: c) = (ipBr ++ b) ++ (']' :: c) := by
          simp [List.append_assoc]
        rw [hre2, List.getElem?_append, if_pos hk_lt] at hhead
        have hmem : ']' ∈ ipBr ++ b := List.getElem?_mem hhead
        rw [List.mem_append] at hmem
        rcases hmem with hm | hm
        · exact absurd hm (by decide)
        · exact hb hm
      · omega
    subst hk_eq
    have htake2 : msg.take a.length = a := by
      rw [hassoc, List.take_left]
    have hfin : msg = (a ++ (ipBr ++ (b ++ [']']))) ++ c := by
      rw [hmsg]
      simp [List.append_assoc]
    have hdrop2 : msg.drop (4 + b.length + a.length + 1) = c := by
      rw [hfin]
      exact List.drop_left'
        (by simp only [List.length_append, List.length_cons, List.length_nil,
              hlen4]
            omega)
    simp only [stripMsg, hjidx, hkidx]
    rw [htake2, hdrop2]
  · intro m hm
    cases hidx : indexOfSub ipBr m with
    | none => simp [stripMsg, hidx]
    | some v =>
        rw [containsSub, hidx] at hm
        simp at hm

/-- Witness for C8 at a concrete input. -/
theorem http_msg_bracket_strip_witness :
    (containsSub ipBr ("Attack ".toList ++ "ip ".toList) = false) ∧
    (']' ∉ "1.2.3.4, 5.6.7.8".toList) ∧
    stripMsg ("Attack ".toList ++ ipBr ++ "1.2.3.4, 5.6.7.8".toList ++
        ']' :: " detected".toList)
      = "Attack ".toList ++ " detected".toList :=
  ⟨by decide, by decide,
   http_msg_bracket_strip.1 "Attack ".toList "1.2.3.4, 5.6.7.8".toList
     " detected".toList (by decide) (by decide)⟩
